import Mathlib

/-!
Shallow embedding of the 2D particle-physics core of the creative-coding
repository: the Vector class (src/unnamed/part_000), and the Particle,
VerletParticle, Constraint and Spring classes
(src/physics/src/physics/particle.ts).  JavaScript numbers are modelled as
real numbers; the mutating methods (which return `this`) and their static
counterparts compute the same values, so each is embedded once as a pure
function from old value to new value.
-/

noncomputable section

namespace CC

/-- 2D vector, from the Vector class of src/unnamed/part_000. -/
structure Vector where
  x : ℝ
  y : ℝ

namespace Vector

/-- Vector.copy: returns a fresh vector with the same components. -/
def copy (v : Vector) : Vector := ⟨v.x, v.y⟩

/-- Vector.add (both the mutating method and the static variant compute
componentwise sum). -/
def add (v w : Vector) : Vector := ⟨v.x + w.x, v.y + w.y⟩

/-- Vector.sub (mutating method and static variant). -/
def sub (v w : Vector) : Vector := ⟨v.x - w.x, v.y - w.y⟩

/-- Vector.mult by a scalar (mutating method and static variant). -/
def mult (v : Vector) (n : ℝ) : Vector := ⟨v.x * n, v.y * n⟩

/-- Vector.div: guarded — `if (n !== 0)` divides componentwise, otherwise
the vector is left unchanged. -/
def div (v : Vector) (n : ℝ) : Vector := if n ≠ 0 then ⟨v.x / n, v.y / n⟩ else v

/-- Vector.mag: `Math.sqrt(x*x + y*y)`. -/
def mag (v : Vector) : ℝ := Real.sqrt (v.x * v.x + v.y * v.y)

/-- Vector.magSq: `x*x + y*y`. -/
def magSq (v : Vector) : ℝ := v.x * v.x + v.y * v.y

/-- Vector.normalize: guarded — divides by the magnitude only when it is
positive. -/
def normalize (v : Vector) : Vector := if v.mag > 0 then v.div v.mag else v

/-- Vector.limit: rescales to magnitude `max` only when `magSq() > max*max`. -/
def limit (v : Vector) (max : ℝ) : Vector :=
  if v.magSq > max * max then (v.div (Real.sqrt v.magSq)).mult max else v

/-- Vector.heading: `Math.atan2(y, x)`, modelled as the argument of the
complex number `x + i*y` (which agrees with atan2 on all inputs,
signed zeros aside). -/
def heading (v : Vector) : ℝ := Complex.arg ⟨v.x, v.y⟩

/-- Vector.dist (method and static variant): Euclidean distance. -/
def dist (v w : Vector) : ℝ :=
  Real.sqrt ((v.x - w.x) * (v.x - w.x) + (v.y - w.y) * (v.y - w.y))

/-- Vector.setMag: normalize then scale. -/
def setMag (v : Vector) (len : ℝ) : Vector := (v.normalize).mult len

end Vector

/-- Free-body particle (explicit Euler), from the Particle class of
particle.ts.  The render color is carried as an opaque string. -/
structure Particle where
  pos : Vector
  vel : Vector
  acc : Vector
  prevPos : Vector
  mass : ℝ
  radius : ℝ
  life : ℝ
  maxLife : ℝ
  color : String

namespace Particle

/-- Particle.applyForce: accumulates `force * (1/mass)` into acceleration. -/
def applyForce (p : Particle) (force : Vector) : Particle :=
  { p with acc := p.acc.add (Vector.mult force (1 / p.mass)) }

/-- Particle.updateEuler. -/
def updateEuler (p : Particle) (dt : ℝ) : Particle :=
  let vel := p.vel.add p.acc
  { p with vel := vel, pos := p.pos.add (Vector.mult vel dt),
           acc := p.acc.mult 0, life := p.life - 1 }

/-- Particle.edges, bounce branch: four sequential `if` blocks, each
clamping one side of one axis, flipping the velocity component scaled by
0.8, and rewriting the previous position on that axis from the new
position and new velocity.  When `bounce` is false the position wraps. -/
def edges (p : Particle) (width height : ℝ) (bounce : Bool) : Particle :=
  if bounce then
    let p1 := if p.pos.x < p.radius then
        let vx := p.vel.x * (-0.8)
        { p with pos := ⟨p.radius, p.pos.y⟩, vel := ⟨vx, p.vel.y⟩,
                 prevPos := ⟨p.radius + vx, p.prevPos.y⟩ }
      else p
    let p2 := if p1.pos.x > width - p1.radius then
        let vx := p1.vel.x * (-0.8)
        { p1 with pos := ⟨width - p1.radius, p1.pos.y⟩, vel := ⟨vx, p1.vel.y⟩,
                  prevPos := ⟨width - p1.radius + vx, p1.prevPos.y⟩ }
      else p1
    let p3 := if p2.pos.y < p2.radius then
        let vy := p2.vel.y * (-0.8)
        { p2 with pos := ⟨p2.pos.x, p2.radius⟩, vel := ⟨p2.vel.x, vy⟩,
                  prevPos := ⟨p2.prevPos.x, p2.radius + vy⟩ }
      else p2
    let p4 := if p3.pos.y > height - p3.radius then
        let vy := p3.vel.y * (-0.8)
        { p3 with pos := ⟨p3.pos.x, height - p3.radius⟩, vel := ⟨p3.vel.x, vy⟩,
                  prevPos := ⟨p3.prevPos.x, height - p3.radius + vy⟩ }
      else p3
    p4
  else
    let q1 := if p.pos.x < 0 then { p with pos := ⟨width, p.pos.y⟩ } else p
    let q2 := if q1.pos.x > width then { q1 with pos := ⟨0, q1.pos.y⟩ } else q1
    let q3 := if q2.pos.y < 0 then { q2 with pos := ⟨q2.pos.x, height⟩ } else q2
    let q4 := if q3.pos.y > height then { q3 with pos := ⟨q3.pos.x, 0⟩ } else q3
    q4

end Particle

/-- Verlet particle, from the VerletParticle class of particle.ts. -/
structure VerletParticle where
  pos : Vector
  oldPos : Vector
  acc : Vector
  pinned : Bool
  mass : ℝ
  radius : ℝ
  color : String

namespace VerletParticle

/-- VerletParticle.applyForce: returns immediately when pinned, otherwise
accumulates `force * (1/mass)` into acceleration. -/
def applyForce (p : VerletParticle) (force : Vector) : VerletParticle :=
  if p.pinned then p
  else { p with acc := p.acc.add (Vector.mult force (1 / p.mass)) }

/-- VerletParticle.update: returns immediately when pinned; otherwise
computes the implicit velocity `(pos - oldPos) * friction`, snapshots
`oldPos`, advances the position by velocity then acceleration, and zeroes
the acceleration (by multiplying it by 0, as the source does). -/
def update (p : VerletParticle) (friction : ℝ) : VerletParticle :=
  if p.pinned then p
  else
    let vel := (Vector.sub p.pos p.oldPos).mult friction
    { p with oldPos := p.pos.copy,
             pos := (p.pos.add vel).add p.acc,
             acc := p.acc.mult 0 }

end VerletParticle

/-- Distance constraint between two VerletParticles, from the Constraint
class of particle.ts.  The two referenced particles are carried by value:
`solve` returns the constraint with its endpoints' updated states. -/
structure Constraint where
  p1 : VerletParticle
  p2 : VerletParticle
  length : ℝ
  stiffness : ℝ

namespace Constraint

/-- Constraint.solve: computes the connecting vector, its magnitude, the
correction factor `((length - dist) / dist) * stiffness`, and moves each
unpinned endpoint by half the correction in opposite directions.  There is
no guard on `dist` being zero. -/
def solve (c : Constraint) : Constraint :=
  let diff := Vector.sub c.p2.pos c.p1.pos
  let dist := diff.mag
  let diffFactor := ((c.length - dist) / dist) * c.stiffness
  let offset := Vector.mult diff (diffFactor * 0.5)
  let q1 := if c.p1.pinned then c.p1 else { c.p1 with pos := c.p1.pos.sub offset }
  let q2 := if c.p2.pinned then c.p2 else { c.p2 with pos := c.p2.pos.add offset }
  { c with p1 := q1, p2 := q2 }

end Constraint

/-- Spring between a fixed anchor and a free-body Particle, from the
Spring class of particle.ts.  The referenced particle is passed to
`update` explicitly. -/
structure Spring where
  anchor : Vector
  restLength : ℝ
  k : ℝ

namespace Spring

/-- Spring.update: displacement from the particle to the anchor, its
magnitude as current length, `stretch = length - restLength`; the
displacement is normalized, scaled by `k * stretch`, and applied to the
particle as a force. -/
def update (s : Spring) (p : Particle) : Particle :=
  let force := Vector.sub s.anchor p.pos
  let d := force.mag
  let stretch := d - s.restLength
  p.applyForce ((force.normalize).mult (s.k * stretch))

end Spring

namespace Vector

lemma mag_nonneg (v : Vector) : 0 ≤ v.mag := Real.sqrt_nonneg _

lemma mag_mult (v : Vector) (n : ℝ) : (v.mult n).mag = |n| * v.mag := by
  unfold mult mag
  have h : v.x * n * (v.x * n) + v.y * n * (v.y * n)
      = n * n * (v.x * v.x + v.y * v.y) := by ring
  rw [h, Real.sqrt_mul (mul_self_nonneg n), Real.sqrt_mul_self_eq_abs]

lemma div_eq_mult {n : ℝ} (v : Vector) (h : n ≠ 0) : v.div n = v.mult n⁻¹ := by
  unfold div mult
  rw [if_pos h]
  simp [div_eq_mul_inv]

lemma mult_mult (v : Vector) (a b : ℝ) : (v.mult a).mult b = v.mult (a * b) := by
  simp [mult, mul_assoc]

lemma magSq_eq (v : Vector) : v.magSq = v.mag * v.mag := by
  unfold magSq mag
  rw [Real.mul_self_sqrt (add_nonneg (mul_self_nonneg _) (mul_self_nonneg _))]

lemma mag_pos_of_ne_zero {v : Vector} (h : v.mag ≠ 0) : 0 < v.mag :=
  lt_of_le_of_ne v.mag_nonneg (Ne.symm h)

lemma heading_mult_pos (v : Vector) {c : ℝ} (hc : 0 < c) :
    (v.mult c).heading = v.heading := by
  unfold heading mult
  have h : (⟨v.x * c, v.y * c⟩ : ℂ) = (c : ℂ) * ⟨v.x, v.y⟩ := by
    apply Complex.ext <;>
      simp [Complex.mul_re, Complex.mul_im, Complex.ofReal_re, Complex.ofReal_im] <;> ring
  rw [h, Complex.arg_real_mul _ hc]

end Vector

/-- Claim C5: Vector.div by 0 leaves the vector unchanged; Vector.normalize
on a zero-magnitude vector leaves it unchanged; and on a vector of nonzero
magnitude, copy().normalize() has magnitude exactly 1 (the real-number model
of "≈ 1 within floating tolerance").  The guards mean no zero divisor is
ever used. -/
theorem vector_zero_guards (v : Vector) :
    v.div 0 = v ∧ (v.mag = 0 → v.normalize = v) ∧
      (v.mag ≠ 0 → (v.copy.normalize).mag = 1) := by
  refine ⟨?_, ?_, ?_⟩
  · unfold Vector.div
    simp
  · intro h
    unfold Vector.normalize
    rw [h]
    simp
  · intro h
    have hv : v.copy = v := rfl
    rw [hv]
    have hpos : 0 < v.mag := Vector.mag_pos_of_ne_zero h
    unfold Vector.normalize
    rw [if_pos hpos, Vector.div_eq_mult v (ne_of_gt hpos), Vector.mag_mult,
      abs_of_pos (inv_pos.mpr hpos)]
    field_simp

/-- Claim C5 witness: the guards and the unit-magnitude property at
concrete vectors. -/
theorem vector_zero_guards_witness :
    Vector.div ⟨3, 4⟩ 0 = ⟨3, 4⟩ ∧ Vector.normalize ⟨0, 0⟩ = ⟨0, 0⟩ ∧
      (Vector.copy ⟨3, 4⟩ |>.normalize).mag = 1 := by
  refine ⟨(vector_zero_guards ⟨3, 4⟩).1, ?_, ?_⟩
  · refine (vector_zero_guards ⟨0, 0⟩).2.1 ?_
    unfold Vector.mag
    norm_num
  · refine (vector_zero_guards ⟨3, 4⟩).2.2 ?_
    unfold Vector.mag
    rw [Real.sqrt_ne_zero']
    norm_num

/-- Claim C6 counterexample: the claim quantifies over every max with
mag v > max, but for a negative max the rescale (or no-op) can never make
the magnitude equal to max, since magnitudes are nonnegative: with
v = (3,0) and max = -2 we have mag v > -2 yet mag (limit v (-2)) ≠ -2
(the code rescales to (-2,0), of magnitude 2). -/
theorem limit_negative_max_counterexample :
    Vector.mag ⟨3, 0⟩ > (-2 : ℝ) ∧
      Vector.mag (Vector.limit ⟨3, 0⟩ (-2)) ≠ (-2 : ℝ) := by
  constructor
  · have := Vector.mag_nonneg (⟨3, 0⟩ : Vector)
    linarith
  · have := Vector.mag_nonneg (Vector.limit ⟨3, 0⟩ (-2))
    intro h
    rw [h] at this
    linarith

/-- Claim C6 (amended: the bound max must be positive): for every Vector2 v
and every max > 0 with v.mag() > max, after v.limit(max) the magnitude of v
is exactly max and v's heading is unchanged; limit rescales only when
magSq() > max*max, and otherwise leaves v untouched. -/
theorem limit_rescale_amended (v : Vector) (max : ℝ) :
    (0 < max → max < v.mag →
      (v.limit max).mag = max ∧ (v.limit max).heading = v.heading) ∧
    (¬ (max * max < v.magSq) → v.limit max = v) := by
  constructor
  · intro hmax hlt
    have hmagpos : 0 < v.mag := lt_trans hmax hlt
    have hcond : max * max < v.magSq := by
      rw [Vector.magSq_eq]
      nlinarith [hlt, hmax]
    have hsq : Real.sqrt v.magSq = v.mag := rfl
    have hform : v.limit max = v.mult (v.mag⁻¹ * max) := by
      unfold Vector.limit
      rw [if_pos hcond, hsq, Vector.div_eq_mult v (ne_of_gt hmagpos),
        Vector.mult_mult]
    have hcpos : 0 < v.mag⁻¹ * max := mul_pos (inv_pos.mpr hmagpos) hmax
    constructor
    · rw [hform, Vector.mag_mult, abs_of_pos hcpos]
      field_simp
    · rw [hform]
      exact v.heading_mult_pos hcpos
  · intro h
    unfold Vector.limit
    rw [if_neg h]

/-- Claim C6 witness: the amended statement at v = (3,4), max = 1, and the
no-rescale case at v = (3,4), max = 10. -/
theorem limit_rescale_amended_witness :
    Vector.mag (Vector.limit ⟨3, 4⟩ 1) = 1 ∧
      Vector.heading (Vector.limit ⟨3, 4⟩ 1) = Vector.heading ⟨3, 4⟩ ∧
      Vector.limit ⟨3, 4⟩ 10 = ⟨3, 4⟩ := by
  have hmag : Vector.mag ⟨3, 4⟩ = 5 := by
    unfold Vector.mag
    rw [show (3 * 3 + 4 * 4 : ℝ) = 5 ^ 2 by norm_num,
      Real.sqrt_sq (by norm_num : (0 : ℝ) ≤ 5)]
  have h1 := (limit_rescale_amended ⟨3, 4⟩ 1).1 (by norm_num)
    (by rw [hmag]; norm_num)
  refine ⟨h1.1, h1.2, ?_⟩
  refine (limit_rescale_amended ⟨3, 4⟩ 10).2 ?_
  unfold Vector.magSq
  norm_num

/-- Claim C4: for an unpinned VerletParticle, update(friction) computes the
velocity from the pre-move position and the old position, snapshots oldPos
before moving, advances the position by velocity then acceleration, zeroes
the acceleration, and changes no other field. -/
theorem verlet_update_step (p : VerletParticle) (friction : ℝ)
    (h : p.pinned = false) :
    (p.update friction).pos.x = p.pos.x + (p.pos.x - p.oldPos.x) * friction + p.acc.x ∧
    (p.update friction).pos.y = p.pos.y + (p.pos.y - p.oldPos.y) * friction + p.acc.y ∧
    (p.update friction).oldPos = p.pos ∧
    (p.update friction).acc = ⟨0, 0⟩ ∧
    (p.update friction).pinned = p.pinned ∧
    (p.update friction).mass = p.mass ∧
    (p.update friction).radius = p.radius ∧
    (p.update friction).color = p.color := by
  unfold VerletParticle.update
  rw [if_neg (by rw [h]; exact Bool.false_ne_true)]
  refine ⟨?_, ?_, rfl, ?_, rfl, rfl, rfl, rfl⟩
  · simp [Vector.add, Vector.sub, Vector.mult]
  · simp [Vector.add, Vector.sub, Vector.mult]
  · simp [Vector.mult]

/-- Claim C4 witness: the update step at a concrete unpinned particle. -/
theorem verlet_update_step_witness :
    (VerletParticle.update ⟨⟨1, 2⟩, ⟨0, 1⟩, ⟨3, 4⟩, false, 1, 4, "c"⟩ (1/2)).oldPos
        = ⟨1, 2⟩ ∧
      (VerletParticle.update ⟨⟨1, 2⟩, ⟨0, 1⟩, ⟨3, 4⟩, false, 1, 4, "c"⟩ (1/2)).pos.x
        = 1 + (1 - 0) * (1/2) + 3 := by
  have h := verlet_update_step ⟨⟨1, 2⟩, ⟨0, 1⟩, ⟨3, 4⟩, false, 1, 4, "c"⟩ (1/2) rfl
  exact ⟨h.2.2.1, h.1⟩

/-- One call against a pinned or unpinned VerletParticle: applying a force,
updating, or being one of the two endpoints of a Constraint whose solve()
is called (the other endpoint and the constraint parameters arbitrary). -/
inductive VOp where
  | force : Vector → VOp
  | upd : ℝ → VOp
  | solveFst : VerletParticle → ℝ → ℝ → VOp
  | solveSnd : VerletParticle → ℝ → ℝ → VOp

/-- The state of the tracked particle after one operation. -/
def applyVOp (p : VerletParticle) : VOp → VerletParticle
  | VOp.force f => p.applyForce f
  | VOp.upd fr => p.update fr
  | VOp.solveFst o l s => (Constraint.solve ⟨p, o, l, s⟩).p1
  | VOp.solveSnd o l s => (Constraint.solve ⟨o, p, l, s⟩).p2

lemma applyVOp_pinned (p : VerletParticle) (h : p.pinned = true) (op : VOp) :
    applyVOp p op = p := by
  cases op <;>
    simp [applyVOp, VerletParticle.applyForce, VerletParticle.update,
      Constraint.solve, h]

/-- Claim C2: a pinned VerletParticle's position is unchanged by any finite
sequence of update(), Constraint.solve() and applyForce() calls (in the
solve calls the particle may stand as either endpoint, with an arbitrary
partner and arbitrary rest length and stiffness). -/
theorem pinned_position_invariant (p : VerletParticle) (h : p.pinned = true)
    (ops : List VOp) : (ops.foldl applyVOp p).pos = p.pos := by
  have hfix : ops.foldl applyVOp p = p := by
    induction ops with
    | nil => rfl
    | cons op rest ih => rw [List.foldl_cons, applyVOp_pinned p h op]; exact ih
  rw [hfix]

/-- Claim C2 witness: a pinned particle at (1,2) run through a force, an
update and both solve positions keeps its position. -/
theorem pinned_position_invariant_witness :
    (List.foldl applyVOp ⟨⟨1, 2⟩, ⟨1, 2⟩, ⟨0, 0⟩, true, 1, 4, "c"⟩
        [VOp.force ⟨0, 5⟩, VOp.upd (99/100),
         VOp.solveFst ⟨⟨7, 8⟩, ⟨7, 8⟩, ⟨0, 0⟩, false, 1, 4, "d"⟩ 10 1,
         VOp.solveSnd ⟨⟨7, 8⟩, ⟨7, 8⟩, ⟨0, 0⟩, false, 1, 4, "d"⟩ 10 1,
         VOp.upd (99/100)]).pos = ⟨1, 2⟩ :=
  pinned_position_invariant ⟨⟨1, 2⟩, ⟨1, 2⟩, ⟨0, 0⟩, true, 1, 4, "c"⟩ rfl _

/-- Claim C10: a Spring whose particle sits exactly at the anchor applies
the zero force: the stretch is -restLength, but normalizing the zero
displacement is a no-op, so scaling it still gives the zero vector and the
particle (acceleration included) is unchanged. -/
theorem spring_update_at_anchor_noop (s : Spring) (p : Particle)
    (hL : 0 < s.restLength) (h : p.pos = s.anchor) :
    s.update p = p := by
  obtain ⟨pos, vel, acc, prevPos, mass, radius, life, maxLife, color⟩ := p
  dsimp only at h
  have hsub : Vector.sub s.anchor pos = ⟨0, 0⟩ := by
    rw [← h]
    simp [Vector.sub]
  simp [Spring.update, Particle.applyForce, hsub, Vector.mag,
    Vector.normalize, Vector.div, Vector.mult, Vector.add]

/-- Claim C10 witness: a spring with positive rest length and its particle
at the anchor leaves the particle untouched. -/
theorem spring_update_at_anchor_noop_witness :
    Spring.update ⟨⟨2, 3⟩, 5, 1/10⟩
        ⟨⟨2, 3⟩, ⟨1, 1⟩, ⟨0, 0⟩, ⟨2, 3⟩, 1, 4, 100, 100, "c"⟩
      = ⟨⟨2, 3⟩, ⟨1, 1⟩, ⟨0, 0⟩, ⟨2, 3⟩, 1, 4, 100, 100, "c"⟩ :=
  spring_update_at_anchor_noop ⟨⟨2, 3⟩, 5, 1/10⟩
    ⟨⟨2, 3⟩, ⟨1, 1⟩, ⟨0, 0⟩, ⟨2, 3⟩, 1, 4, 100, 100, "c"⟩ (by norm_num) rfl

/-- Claim C7: Spring.update adds exactly the Hookean force
k * (dist(anchor,pos) - restLength) * unit(anchor - pos) through
applyForce, so the acceleration changes by that force divided by the mass,
while position, velocity and previous position are untouched (the spring
never writes the position). -/
theorem spring_update_adds_hooke_force (s : Spring) (p : Particle)
    (hd : Vector.dist s.anchor p.pos ≠ 0) :
    (s.update p).pos = p.pos ∧ (s.update p).vel = p.vel ∧
    (s.update p).prevPos = p.prevPos ∧
    (s.update p).acc.x = p.acc.x +
      s.k * (Vector.dist s.anchor p.pos - s.restLength) / p.mass *
        ((s.anchor.x - p.pos.x) / Vector.dist s.anchor p.pos) ∧
    (s.update p).acc.y = p.acc.y +
      s.k * (Vector.dist s.anchor p.pos - s.restLength) / p.mass *
        ((s.anchor.y - p.pos.y) / Vector.dist s.anchor p.pos) := by
  have hmageq : (Vector.sub s.anchor p.pos).mag = Vector.dist s.anchor p.pos := rfl
  have hpos : 0 < (Vector.sub s.anchor p.pos).mag :=
    Vector.mag_pos_of_ne_zero (by rw [hmageq]; exact hd)
  refine ⟨rfl, rfl, rfl, ?_, ?_⟩ <;>
  · simp only [Spring.update, Particle.applyForce, Vector.normalize]
    rw [if_pos hpos, Vector.div_eq_mult _ (ne_of_gt hpos), ← hmageq]
    simp only [Vector.add, Vector.mult, Vector.sub]
    ring

/-- Claim C7 witness: spring anchored at (0,10) acting on a particle at
the origin (distance 10): position and velocity are untouched. -/
theorem spring_update_adds_hooke_force_witness :
    (Spring.update ⟨⟨0, 10⟩, 2, 1/10⟩
        ⟨⟨0, 0⟩, ⟨1, 1⟩, ⟨0, 0⟩, ⟨0, 0⟩, 2, 4, 100, 100, "c"⟩).pos = ⟨0, 0⟩ ∧
    (Spring.update ⟨⟨0, 10⟩, 2, 1/10⟩
        ⟨⟨0, 0⟩, ⟨1, 1⟩, ⟨0, 0⟩, ⟨0, 0⟩, 2, 4, 100, 100, "c"⟩).vel = ⟨1, 1⟩ := by
  have h := spring_update_adds_hooke_force ⟨⟨0, 10⟩, 2, 1/10⟩
    ⟨⟨0, 0⟩, ⟨1, 1⟩, ⟨0, 0⟩, ⟨0, 0⟩, 2, 4, 100, 100, "c"⟩
    (by simp only [Vector.dist]; rw [Real.sqrt_ne_zero']; norm_num)
  exact ⟨h.1, h.2.1⟩

lemma dist_after_offset (x1 y1 x2 y2 f c : ℝ) (hc : 1 + 2 * f = c) :
    Vector.dist ⟨x1 - (x2 - x1) * f, y1 - (y2 - y1) * f⟩
        ⟨x2 + (x2 - x1) * f, y2 + (y2 - y1) * f⟩
      = |c| * Vector.dist ⟨x1, y1⟩ ⟨x2, y2⟩ := by
  simp only [Vector.dist]
  have key : (x1 - (x2 - x1) * f - (x2 + (x2 - x1) * f)) *
        (x1 - (x2 - x1) * f - (x2 + (x2 - x1) * f)) +
      (y1 - (y2 - y1) * f - (y2 + (y2 - y1) * f)) *
        (y1 - (y2 - y1) * f - (y2 + (y2 - y1) * f))
      = c ^ 2 * ((x1 - x2) * (x1 - x2) + (y1 - y2) * (y1 - y2)) := by
    rw [← hc]
    ring
  rw [key, Real.sqrt_mul (sq_nonneg c), Real.sqrt_sq_eq_abs]

/-- Claim C1: a Constraint between two unpinned VerletParticles with
stiffness 1, positive rest length, and nonzero current distance has its
distance driven exactly to the rest length by a single solve() (the
real-number model of "within floating tolerance"). -/
theorem constraint_solve_restores_length (c : Constraint)
    (hs : c.stiffness = 1) (hL : 0 < c.length)
    (h1 : c.p1.pinned = false) (h2 : c.p2.pinned = false)
    (hd : Vector.dist c.p1.pos c.p2.pos ≠ 0) :
    Vector.dist c.solve.p1.pos c.solve.p2.pos = c.length := by
  obtain ⟨p1, p2, L, s⟩ := c
  obtain ⟨⟨x1, y1⟩, o1, a1, pin1, m1, r1, col1⟩ := p1
  obtain ⟨⟨x2, y2⟩, o2, a2, pin2, m2, r2, col2⟩ := p2
  dsimp only at hs hL h1 h2 hd ⊢
  subst hs h1 h2
  have hdd : Vector.dist ⟨x1, y1⟩ ⟨x2, y2⟩
      = Real.sqrt ((x2 - x1) * (x2 - x1) + (y2 - y1) * (y2 - y1)) := by
    simp only [Vector.dist]
    congr 1
    ring
  have hm0 : Real.sqrt ((x2 - x1) * (x2 - x1) + (y2 - y1) * (y2 - y1)) ≠ 0 := by
    rw [← hdd]
    exact hd
  have hmpos : 0 < Real.sqrt ((x2 - x1) * (x2 - x1) + (y2 - y1) * (y2 - y1)) :=
    lt_of_le_of_ne (Real.sqrt_nonneg _) (Ne.symm hm0)
  have hf : 1 + 2 * ((L - Real.sqrt ((x2 - x1) * (x2 - x1) + (y2 - y1) * (y2 - y1)))
        / Real.sqrt ((x2 - x1) * (x2 - x1) + (y2 - y1) * (y2 - y1)) * 1 * 0.5)
      = L / Real.sqrt ((x2 - x1) * (x2 - x1) + (y2 - y1) * (y2 - y1)) := by
    field_simp
    ring
  simp only [Constraint.solve, Vector.sub, Vector.mag, Vector.mult, Vector.add]
  rw [if_neg Bool.false_ne_true, if_neg Bool.false_ne_true]
  dsimp only
  rw [dist_after_offset x1 y1 x2 y2 _ _ hf, hdd,
    abs_of_pos (div_pos hL hmpos)]
  field_simp

/-- Claim C1 witness: particles at (0,0) and (3,4) (distance 5), rest
length 7, stiffness 1: one solve() makes the distance exactly 7. -/
theorem constraint_solve_restores_length_witness :
    Vector.dist
        (Constraint.solve ⟨⟨⟨0, 0⟩, ⟨0, 0⟩, ⟨0, 0⟩, false, 1, 4, "a"⟩,
            ⟨⟨3, 4⟩, ⟨3, 4⟩, ⟨0, 0⟩, false, 1, 4, "b"⟩, 7, 1⟩).p1.pos
        (Constraint.solve ⟨⟨⟨0, 0⟩, ⟨0, 0⟩, ⟨0, 0⟩, false, 1, 4, "a"⟩,
            ⟨⟨3, 4⟩, ⟨3, 4⟩, ⟨0, 0⟩, false, 1, 4, "b"⟩, 7, 1⟩).p2.pos = 7 := by
  refine constraint_solve_restores_length _ rfl (by norm_num) rfl rfl ?_
  show Vector.dist (⟨0, 0⟩ : Vector) ⟨3, 4⟩ ≠ 0
  simp only [Vector.dist]
  rw [Real.sqrt_ne_zero']
  norm_num

lemma edges_bounce_eq (px py vx vy ox oy : ℝ) (acc : Vector)
    (mass r life maxLife : ℝ) (col : String) (width height : ℝ)
    (hw : 2 * r ≤ width) (hh : 2 * r ≤ height) :
    Particle.edges ⟨⟨px, py⟩, ⟨vx, vy⟩, acc, ⟨ox, oy⟩, mass, r, life, maxLife, col⟩
        width height true
      = ⟨⟨if px < r then r else if width - r < px then width - r else px,
          if py < r then r else if height - r < py then height - r else py⟩,
         ⟨if px < r then vx * (-0.8) else if width - r < px then vx * (-0.8) else vx,
          if py < r then vy * (-0.8) else if height - r < py then vy * (-0.8) else vy⟩,
         acc,
         ⟨if px < r then r + vx * (-0.8)
            else if width - r < px then width - r + vx * (-0.8) else ox,
          if py < r then r + vy * (-0.8)
            else if height - r < py then height - r + vy * (-0.8) else oy⟩,
         mass, r, life, maxLife, col⟩ := by
  simp only [Particle.edges, gt_iff_lt, if_true]
  by_cases hx1 : px < r
  · have hx2 : ¬ (width - r < r) := not_lt.mpr (by linarith)
    by_cases hy1 : py < r
    · have hy2 : ¬ (height - r < r) := not_lt.mpr (by linarith)
      simp only [if_pos hx1, if_neg hx2, if_pos hy1, if_neg hy2]
    · by_cases hy2 : height - r < py
      · simp only [if_pos hx1, if_neg hx2, if_neg hy1, if_pos hy2]
      · simp only [if_pos hx1, if_neg hx2, if_neg hy1, if_neg hy2]
  · by_cases hx2 : width - r < px
    · by_cases hy1 : py < r
      · have hy2 : ¬ (height - r < r) := not_lt.mpr (by linarith)
        simp only [if_neg hx1, if_pos hx2, if_pos hy1, if_neg hy2]
      · by_cases hy2 : height - r < py
        · simp only [if_neg hx1, if_pos hx2, if_neg hy1, if_pos hy2]
        · simp only [if_neg hx1, if_pos hx2, if_neg hy1, if_neg hy2]
    · by_cases hy1 : py < r
      · have hy2 : ¬ (height - r < r) := not_lt.mpr (by linarith)
        simp only [if_neg hx1, if_neg hx2, if_pos hy1, if_neg hy2]
      · by_cases hy2 : height - r < py
        · simp only [if_neg hx1, if_neg hx2, if_neg hy1, if_pos hy2]
        · simp only [if_neg hx1, if_neg hx2, if_neg hy1, if_neg hy2]

/-- Claim C8: with bounce=true and a domain at least as wide as the
particle's diameter on each axis, edges() clamps the position to
[radius, dimension - radius] per axis; on an axis that was out of bounds
the velocity component is multiplied by -0.8 and prevPos on that axis is
rewritten to position + velocity (both post-bounce); an axis in bounds is
untouched. -/
theorem edges_bounce_clamp (p : Particle) (width height : ℝ)
    (hw : 2 * p.radius ≤ width) (hh : 2 * p.radius ≤ height) :
    (p.edges width height true).pos.x
        = max p.radius (min (width - p.radius) p.pos.x) ∧
    (p.edges width height true).pos.y
        = max p.radius (min (height - p.radius) p.pos.y) ∧
    (p.pos.x < p.radius ∨ width - p.radius < p.pos.x →
      (p.edges width height true).vel.x = p.vel.x * (-0.8) ∧
      (p.edges width height true).prevPos.x
        = (p.edges width height true).pos.x + (p.edges width height true).vel.x) ∧
    (¬ p.pos.x < p.radius → ¬ width - p.radius < p.pos.x →
      (p.edges width height true).pos.x = p.pos.x ∧
      (p.edges width height true).vel.x = p.vel.x ∧
      (p.edges width height true).prevPos.x = p.prevPos.x) ∧
    (p.pos.y < p.radius ∨ height - p.radius < p.pos.y →
      (p.edges width height true).vel.y = p.vel.y * (-0.8) ∧
      (p.edges width height true).prevPos.y
        = (p.edges width height true).pos.y + (p.edges width height true).vel.y) ∧
    (¬ p.pos.y < p.radius → ¬ height - p.radius < p.pos.y →
      (p.edges width height true).pos.y = p.pos.y ∧
      (p.edges width height true).vel.y = p.vel.y ∧
      (p.edges width height true).prevPos.y = p.prevPos.y) := by
  obtain ⟨⟨px, py⟩, ⟨vx, vy⟩, acc, ⟨ox, oy⟩, mass, r, life, maxLife, col⟩ := p
  dsimp only at hw hh ⊢
  rw [edges_bounce_eq px py vx vy ox oy acc mass r life maxLife col width height hw hh]
  dsimp only
  refine ⟨?_, ?_, ?_, ?_, ?_, ?_⟩
  · split_ifs with h1 h2
    · rw [min_eq_right (by linarith), max_eq_left (by linarith)]
    · rw [min_eq_left (by linarith), max_eq_right (by linarith)]
    · rw [min_eq_right (by linarith), max_eq_right (by linarith)]
  · split_ifs with h1 h2
    · rw [min_eq_right (by linarith), max_eq_left (by linarith)]
    · rw [min_eq_left (by linarith), max_eq_right (by linarith)]
    · rw [min_eq_right (by linarith), max_eq_right (by linarith)]
  · rintro (h | h)
    · rw [if_pos h, if_pos h, if_pos h]
      exact ⟨rfl, rfl⟩
    · have hno : ¬ px < r := by intro h2; linarith
      rw [if_neg hno, if_pos h, if_neg hno, if_pos h, if_neg hno, if_pos h]
      exact ⟨rfl, rfl⟩
  · intro h1 h2
    rw [if_neg h1, if_neg h2, if_neg h1, if_neg h2, if_neg h1, if_neg h2]
    exact ⟨rfl, rfl, rfl⟩
  · rintro (h | h)
    · rw [if_pos h, if_pos h, if_pos h]
      exact ⟨rfl, rfl⟩
    · have hno : ¬ py < r := by intro h2; linarith
      rw [if_neg hno, if_pos h, if_neg hno, if_pos h, if_neg hno, if_pos h]
      exact ⟨rfl, rfl⟩
  · intro h1 h2
    rw [if_neg h1, if_neg h2, if_neg h1, if_neg h2, if_neg h1, if_neg h2]
    exact ⟨rfl, rfl, rfl⟩

/-- Claim C8 witness: a particle of radius 4 at (-5, 50) with velocity
(10, 3) in a 100x100 domain: the x axis is clamped to 4 and bounced, the y
axis untouched. -/
theorem edges_bounce_clamp_witness :
    (Particle.edges ⟨⟨-5, 50⟩, ⟨10, 3⟩, ⟨0, 0⟩, ⟨-15, 47⟩, 1, 4, 100, 100, "c"⟩
        100 100 true).pos.x = 4 ∧
    (Particle.edges ⟨⟨-5, 50⟩, ⟨10, 3⟩, ⟨0, 0⟩, ⟨-15, 47⟩, 1, 4, 100, 100, "c"⟩
        100 100 true).vel.x = 10 * (-0.8) ∧
    (Particle.edges ⟨⟨-5, 50⟩, ⟨10, 3⟩, ⟨0, 0⟩, ⟨-15, 47⟩, 1, 4, 100, 100, "c"⟩
        100 100 true).vel.y = 3 ∧
    (Particle.edges ⟨⟨-5, 50⟩, ⟨10, 3⟩, ⟨0, 0⟩, ⟨-15, 47⟩, 1, 4, 100, 100, "c"⟩
        100 100 true).prevPos.y = 47 := by
  have h := edges_bounce_clamp
    ⟨⟨-5, 50⟩, ⟨10, 3⟩, ⟨0, 0⟩, ⟨-15, 47⟩, 1, 4, 100, 100, "c"⟩ 100 100
    (by norm_num) (by norm_num)
  have hb := h.2.2.1 (Or.inl (by norm_num))
  have hin := h.2.2.2.2.2 (by norm_num) (by norm_num)
  refine ⟨?_, hb.1, hin.2.1, hin.2.2⟩
  rw [h.1]
  norm_num

/-- Modelled from the spec: the curl-noise field generator (the file
physics/noise.ts is imported by the demos but is not among the provided
sources).  Per the spec: the scale parameter rescales the input
coordinates before sampling, time is an independent noise axis, and the
returned field is (dN/dy, -dN/dx) with each partial derivative of the
scalar noise N estimated by symmetric finite differences with step eps. -/
def curlNoise (N : ℝ → ℝ → ℝ → ℝ) (eps : ℝ) (x y time scale : ℝ) : Vector :=
  let sx := x * scale
  let sy := y * scale
  let dNdy := (N sx (sy + eps) time - N sx (sy - eps) time) / (2 * eps)
  let dNdx := (N (sx + eps) sy time - N (sx - eps) sy time) / (2 * eps)
  ⟨dNdy, -dNdx⟩

/-- Symmetric-finite-difference estimate of the divergence of a 2D vector
field, with step `step`, as in the spec's divergence check. -/
def numDivergence (F : ℝ → ℝ → Vector) (step x y : ℝ) : ℝ :=
  ((F (x + step) y).x - (F (x - step) y).x) / (2 * step) +
  ((F x (y + step)).y - (F x (y - step)).y) / (2 * step)

/-- Claim C9: the curl-noise field (dN/dy, -dN/dx) built from symmetric
finite differences has numerically estimated divergence zero: when the
divergence stencil step matches the field's sampling step (eps = scale *
step, the matched grid), the estimate is exactly 0 at every point, for
every underlying scalar noise N. -/
theorem curlNoise_numerical_divergence_zero (N : ℝ → ℝ → ℝ → ℝ)
    (eps time scale step x y : ℝ) (h : eps = scale * step) :
    numDivergence (fun a b => curlNoise N eps a b time scale) step x y = 0 := by
  subst h
  simp only [curlNoise, numDivergence]
  ring_nf

/-- Claim C9 witness: the matched-step divergence estimate at a concrete
noise function, point and scale. -/
theorem curlNoise_numerical_divergence_zero_witness :
    numDivergence (fun a b => curlNoise (fun u v _ => u * v) (1/100) a b 0 1)
        (1/100) 2 3 = 0 :=
  curlNoise_numerical_divergence_zero (fun u v _ => u * v) (1/100) 0 1 (1/100) 2 3
    (by norm_num)

/-- IEEE-754-style value used to analyse the unguarded division in
Constraint.solve: a finite real, a signed infinity (true = positive), or
NaN.  Signed zeros and overflow are not modelled; they play no role on the
analysed path. -/
inductive FP where
  | num : ℝ → FP
  | inf : Bool → FP
  | nan : FP

namespace FP

def add : FP → FP → FP
  | nan, _ => nan
  | _, nan => nan
  | num a, num b => num (a + b)
  | num _, inf s => inf s
  | inf s, num _ => inf s
  | inf s, inf t => if s = t then inf s else nan

def sub : FP → FP → FP
  | nan, _ => nan
  | _, nan => nan
  | num a, num b => num (a - b)
  | num _, inf s => inf (!s)
  | inf s, num _ => inf s
  | inf s, inf t => if s = t then nan else inf s

def mul : FP → FP → FP
  | nan, _ => nan
  | _, nan => nan
  | num a, num b => num (a * b)
  | num a, inf s => if a = 0 then nan else if 0 < a then inf s else inf (!s)
  | inf s, num a => if a = 0 then nan else if 0 < a then inf s else inf (!s)
  | inf s, inf t => inf (s == t)

def div : FP → FP → FP
  | nan, _ => nan
  | _, nan => nan
  | num a, num b =>
      if b = 0 then (if a = 0 then nan else if 0 < a then inf true else inf false)
      else num (a / b)
  | num _, inf _ => num 0
  | inf s, num a => if 0 ≤ a then inf s else inf (!s)
  | inf _, inf _ => nan

def sqrt : FP → FP
  | nan => nan
  | num a => if a < 0 then nan else num (Real.sqrt a)
  | inf s => if s then inf true else nan

end FP

/-- Not a finite number: NaN or an infinity. -/
def NonFinite (g : FP) : Prop := g = FP.nan ∨ ∃ t, g = FP.inf t

/-- 2D vector over FP, componentwise like Vector. -/
structure FVector where
  x : FP
  y : FP

namespace FVector

def add (v w : FVector) : FVector := ⟨v.x.add w.x, v.y.add w.y⟩

def sub (v w : FVector) : FVector := ⟨v.x.sub w.x, v.y.sub w.y⟩

def mult (v : FVector) (n : FP) : FVector := ⟨v.x.mul n, v.y.mul n⟩

def mag (v : FVector) : FP := ((v.x.mul v.x).add (v.y.mul v.y)).sqrt

end FVector

/-- VerletParticle state in the IEEE model (only the fields solve() and
update() touch). -/
structure FVerletParticle where
  pos : FVector
  oldPos : FVector
  acc : FVector
  pinned : Bool

/-- VerletParticle.update in the IEEE model (mass is not read by update). -/
def FVerletParticle.update (p : FVerletParticle) (friction : FP) : FVerletParticle :=
  if p.pinned then p
  else
    let vel := (FVector.sub p.pos p.oldPos).mult friction
    { p with oldPos := p.pos,
             pos := (p.pos.add vel).add p.acc,
             acc := p.acc.mult (FP.num 0) }

/-- Constraint in the IEEE model. -/
structure FConstraint where
  p1 : FVerletParticle
  p2 : FVerletParticle
  length : FP
  stiffness : FP

/-- Constraint.solve in the IEEE model: same lines as Constraint.solve,
with IEEE-754 semantics for the arithmetic. -/
def FConstraint.solve (c : FConstraint) : FConstraint :=
  let diff := FVector.sub c.p2.pos c.p1.pos
  let dist := diff.mag
  let diffFactor := ((c.length.sub dist).div dist).mul c.stiffness
  let offset := FVector.mult diff (diffFactor.mul (FP.num 0.5))
  let q1 := if c.p1.pinned then c.p1 else { c.p1 with pos := c.p1.pos.sub offset }
  let q2 := if c.p2.pinned then c.p2 else { c.p2 with pos := c.p2.pos.add offset }
  { c with p1 := q1, p2 := q2 }

lemma nonFinite_div_zero (a : ℝ) : NonFinite ((FP.num a).div (FP.num 0)) := by
  simp only [FP.div]
  rw [if_true]
  split_ifs
  · exact Or.inl rfl
  · exact Or.inr ⟨true, rfl⟩
  · exact Or.inr ⟨false, rfl⟩

lemma nonFinite_mul_num {g : FP} (hg : NonFinite g) (c : ℝ) :
    NonFinite (g.mul (FP.num c)) := by
  rcases hg with h | ⟨t, h⟩ <;> subst h
  · exact Or.inl rfl
  · simp only [FP.mul]
    split_ifs
    · exact Or.inl rfl
    · exact Or.inr ⟨t, rfl⟩
    · exact Or.inr ⟨!t, rfl⟩

lemma zero_mul_nonFinite {g : FP} (hg : NonFinite g) :
    (FP.num 0).mul g = FP.nan := by
  rcases hg with h | ⟨t, h⟩ <;> subst h
  · rfl
  · simp only [FP.mul]
    rw [if_true]

/-- Claim C3: Constraint.solve divides by the live inter-particle distance
with no zero guard: in the IEEE model, for a constraint between two
unpinned particles whose finite positions coincide exactly, the correction
is non-finite and NaN is written into both endpoints' positions, and it
propagates: a subsequent update() (any friction) keeps the position NaN. -/
theorem fsolve_coincident_nan (c : FConstraint) (a b L s : ℝ) (f : FP)
    (h1 : c.p1.pinned = false) (h2 : c.p2.pinned = false)
    (hp1 : c.p1.pos = ⟨FP.num a, FP.num b⟩)
    (hp2 : c.p2.pos = ⟨FP.num a, FP.num b⟩)
    (hL : c.length = FP.num L) (hs : c.stiffness = FP.num s) :
    c.solve.p1.pos = ⟨FP.nan, FP.nan⟩ ∧ c.solve.p2.pos = ⟨FP.nan, FP.nan⟩ ∧
      (c.solve.p1.update f).pos = ⟨FP.nan, FP.nan⟩ := by
  obtain ⟨⟨pos1, old1, acc1, pin1⟩, ⟨pos2, old2, acc2, pin2⟩, Lf, sf⟩ := c
  dsimp only at h1 h2 hp1 hp2 hL hs ⊢
  subst h1 h2 hp1 hp2 hL hs
  have hdiff : FVector.sub ⟨FP.num a, FP.num b⟩ ⟨FP.num a, FP.num b⟩
      = ⟨FP.num 0, FP.num 0⟩ := by
    simp [FVector.sub, FP.sub]
  have hmag : FVector.mag ⟨FP.num 0, FP.num 0⟩ = FP.num 0 := by
    simp [FVector.mag, FP.mul, FP.add, FP.sqrt]
  have hdf : NonFinite (((((FP.num L).sub (FP.num 0)).div (FP.num 0)).mul
      (FP.num s)).mul (FP.num 0.5)) :=
    nonFinite_mul_num (nonFinite_mul_num (nonFinite_div_zero (L - 0)) s) 0.5
  have hoff : FVector.mult ⟨FP.num 0, FP.num 0⟩
      (((((FP.num L).sub (FP.num 0)).div (FP.num 0)).mul (FP.num s)).mul
        (FP.num 0.5))
      = ⟨FP.nan, FP.nan⟩ := by
    simp only [FVector.mult]
    rw [zero_mul_nonFinite hdf]
  have hq1 : (FConstraint.solve ⟨⟨⟨FP.num a, FP.num b⟩, old1, acc1, false⟩,
        ⟨⟨FP.num a, FP.num b⟩, old2, acc2, false⟩, FP.num L, FP.num s⟩).p1
      = ⟨⟨FP.nan, FP.nan⟩, old1, acc1, false⟩ := by
    simp only [FConstraint.solve]
    rw [hdiff, hmag, hoff, if_neg Bool.false_ne_true]
    simp [FVector.sub, FP.sub]
  have hq2 : (FConstraint.solve ⟨⟨⟨FP.num a, FP.num b⟩, old1, acc1, false⟩,
        ⟨⟨FP.num a, FP.num b⟩, old2, acc2, false⟩, FP.num L, FP.num s⟩).p2
      = ⟨⟨FP.nan, FP.nan⟩, old2, acc2, false⟩ := by
    simp only [FConstraint.solve]
    rw [hdiff, hmag, hoff, if_neg Bool.false_ne_true]
    simp [FVector.add, FP.add]
  refine ⟨by rw [hq1], by rw [hq2], ?_⟩
  rw [hq1]
  simp [FVerletParticle.update, FVector.sub, FVector.mult, FVector.add,
    FP.sub, FP.mul, FP.add]

/-- Claim C3 witness: two unpinned particles both at (1,2), rest length
10, stiffness 1: solve() writes NaN into both positions and a following
update(0.99) keeps them NaN. -/
theorem fsolve_coincident_nan_witness :
    (FConstraint.solve ⟨⟨⟨FP.num 1, FP.num 2⟩, ⟨FP.num 1, FP.num 2⟩,
          ⟨FP.num 0, FP.num 0⟩, false⟩,
        ⟨⟨FP.num 1, FP.num 2⟩, ⟨FP.num 1, FP.num 2⟩,
          ⟨FP.num 0, FP.num 0⟩, false⟩, FP.num 10, FP.num 1⟩).p1.pos
      = ⟨FP.nan, FP.nan⟩ ∧
    (FConstraint.solve ⟨⟨⟨FP.num 1, FP.num 2⟩, ⟨FP.num 1, FP.num 2⟩,
          ⟨FP.num 0, FP.num 0⟩, false⟩,
        ⟨⟨FP.num 1, FP.num 2⟩, ⟨FP.num 1, FP.num 2⟩,
          ⟨FP.num 0, FP.num 0⟩, false⟩, FP.num 10, FP.num 1⟩).p2.pos
      = ⟨FP.nan, FP.nan⟩ ∧
    ((FConstraint.solve ⟨⟨⟨FP.num 1, FP.num 2⟩, ⟨FP.num 1, FP.num 2⟩,
          ⟨FP.num 0, FP.num 0⟩, false⟩,
        ⟨⟨FP.num 1, FP.num 2⟩, ⟨FP.num 1, FP.num 2⟩,
          ⟨FP.num 0, FP.num 0⟩, false⟩, FP.num 10,
          FP.num 1⟩).p1.update (FP.num (99/100))).pos
      = ⟨FP.nan, FP.nan⟩ :=
  fsolve_coincident_nan _ 1 2 10 1 (FP.num (99/100)) rfl rfl rfl rfl rfl rfl

end CC

end
